import Mathlib

/-!
Verification of the multi-git orchestrator against its design spec.

The JavaScript sources are shallowly embedded: promise-returning methods
become total functions whose rejection channel is an explicit `Except` or
a tagged record, lodash and bluebird combinators are translated by their
documented semantics, and the mutable process state touched by the flow
finish operations is threaded explicitly.
-/

namespace MG

/- ## String helpers.
Kernel-friendly replacements for the string primitives the sources use:
JavaScript string comparison is lexicographic on code units, which for the
ASCII version strings handled here coincides with comparing the scalar
values of the characters one by one. -/

/-- Lexicographic comparison of character lists by scalar value, the
order used by the default JavaScript Array sort on strings. -/
def charListLe : List Char → List Char → Bool
  | [], _ => true
  | _ :: _, [] => false
  | a :: as, b :: bs =>
    if a.toNat < b.toNat then true
    else if b.toNat < a.toNat then false
    else charListLe as bs

/-- Lexicographic string comparison, the default JavaScript sort order. -/
def strLe (a b : String) : Bool := charListLe a.data b.data

/-- Whether the first character list begins with the second. -/
def listStartsWith : List Char → List Char → Bool
  | _, [] => true
  | [], _ :: _ => false
  | a :: as, b :: bs => (a == b) && listStartsWith as bs

/-- Embedding of the JavaScript startsWith used on branch names. -/
def strStartsWith (s pre : String) : Bool := listStartsWith s.data pre.data

theorem charListLe_refl : ∀ cs, charListLe cs cs = true := by
  intro cs
  induction cs with
  | nil => rfl
  | cons a as ih => simp [charListLe, ih]

theorem charListLe_total : ∀ as bs, charListLe as bs = true ∨ charListLe bs as = true := by
  intro as
  induction as with
  | nil => intro bs; left; rfl
  | cons a as ih =>
    intro bs
    cases bs with
    | nil => right; rfl
    | cons b bs =>
      rcases Nat.lt_trichotomy a.toNat b.toNat with h | h | h
      · left; simp [charListLe, h]
      · have h1 : ¬ a.toNat < b.toNat := by omega
        have h2 : ¬ b.toNat < a.toNat := by omega
        rcases ih bs with hc | hc
        · left; simp [charListLe, h1, h2, hc]
        · right; simp [charListLe, h1, h2, hc]
      · right; simp [charListLe, h]

theorem charListLe_trans :
    ∀ as bs cs, charListLe as bs = true → charListLe bs cs = true →
      charListLe as cs = true := by
  intro as
  induction as with
  | nil => intro bs cs _ _; rfl
  | cons a as ih =>
    intro bs cs hab hbc
    cases bs with
    | nil => simp [charListLe] at hab
    | cons b bs =>
      cases cs with
      | nil => simp [charListLe] at hbc
      | cons c cs =>
        rcases Nat.lt_trichotomy a.toNat b.toNat with h1 | h1 | h1 <;>
          rcases Nat.lt_trichotomy b.toNat c.toNat with h2 | h2 | h2
        · simp [charListLe, show a.toNat < c.toNat by omega]
        · simp [charListLe, show a.toNat < c.toNat by omega]
        · simp [charListLe, show ¬ b.toNat < c.toNat by omega, h2] at hbc
        · simp [charListLe, show a.toNat < c.toNat by omega]
        · simp only [charListLe, show ¬ a.toNat < b.toNat by omega,
            show ¬ b.toNat < a.toNat by omega, if_neg, if_false] at hab
          simp only [charListLe, show ¬ b.toNat < c.toNat by omega,
            show ¬ c.toNat < b.toNat by omega, if_neg, if_false] at hbc
          simp only [charListLe, show ¬ a.toNat < c.toNat by omega,
            show ¬ c.toNat < a.toNat by omega, if_neg, if_false]
          exact ih bs cs hab hbc
        · simp [charListLe, show ¬ b.toNat < c.toNat by omega, h2] at hbc
        · simp [charListLe, show ¬ a.toNat < b.toNat by omega, h1] at hab
        · simp [charListLe, show ¬ a.toNat < b.toNat by omega, h1] at hab
        · simp [charListLe, show ¬ a.toNat < b.toNat by omega, h1] at hab

instance strLeRelTotal : IsTotal String (fun a b => strLe a b = true) :=
  ⟨fun a b => charListLe_total a.data b.data⟩

instance strLeRelTrans : IsTrans String (fun a b => strLe a b = true) :=
  ⟨fun a b c => charListLe_trans a.data b.data c.data⟩

/- ## Error kinds (src/src/errors.js). -/

/-- Error kinds of the orchestrator, one per error class of errors.js,
plus a constructor for arbitrary errors surfaced by the external VCS
layer. -/
inductive ErrCode where
  | dirtyRepo
  | noPackage
  | noActiveRelease
  | activeRelease
  | multipleActiveRelease
  | noConfigFile
  | groupMissing
  | projectMissing
  | chainBreaker
  | aheadRepo
  | behindRepo
  | invalidVersion
  | invalidFeature
  | invalidSupport
  | gitError (message : String)
deriving DecidableEq, Repr

/-- The code string each error class stores in its code field. -/
def ErrCode.code : ErrCode → String
  | .dirtyRepo => "dirty-repo"
  | .noPackage => "no-package"
  | .noActiveRelease => "no-active-release"
  | .activeRelease => "active-release"
  | .multipleActiveRelease => "multiple-active-release"
  | .noConfigFile => "no-config-file"
  | .groupMissing => "group-missing"
  | .projectMissing => "project-missing"
  | .chainBreaker => "chain-breaker"
  | .aheadRepo => "ahead-repo"
  | .behindRepo => "behind-repo"
  | .invalidVersion => "invalid-version"
  | .invalidFeature => "invalid-feature"
  | .invalidSupport => "invalid-support"
  | .gitError _ => "git-error"

instance exceptDecEq {ε α : Type} [DecidableEq ε] [DecidableEq α] :
    DecidableEq (Except ε α) := fun a b =>
  match a, b with
  | .ok x, .ok y =>
    if h : x = y then isTrue (h ▸ rfl)
    else isFalse (fun he => by cases he; exact h rfl)
  | .error e, .error f =>
    if h : e = f then isTrue (h ▸ rfl)
    else isFalse (fun he => by cases he; exact h rfl)
  | .ok _, .error _ => isFalse (fun he => by cases he)
  | .error _, .ok _ => isFalse (fun he => by cases he)

/- ## Group fan-out (src/src/group.js, src/src/manager.js Group class). -/

/-- A group member: a Directory identified by its path and display name. -/
structure Member where
  path : String
  name : String
deriving DecidableEq, Repr

/-- Outcome record for one member of a fan-out: either the resolved
payload passed through unchanged, or the failure record
set up by the catch handler, with isRejected true, the member as parent
and the caught error. -/
inductive FanResult (α : Type) where
  | payload (value : α)
  | rejected (parent : Member) (error : ErrCode)
deriving DecidableEq, Repr

/-- Per-member wrapping used by the plain fan-out verbs: a resolved
operation passes its payload through, a rejected one is caught and turned
into the failure record. -/
def fanWrap {α : Type} (m : Member) (r : Except ErrCode α) : FanResult α :=
  match r with
  | .ok payload => FanResult.payload payload
  | .error e => FanResult.rejected m e

/-- Per-member wrapping of Group.detailedStatus in src/src/group.js: the
then handler throws NoConfigFileError when the member index is 2, and the
catch handler turns any error, including that one, into the failure
record. -/
def detailedWrap {α : Type} (i : Nat) (m : Member) (r : Except ErrCode α) : FanResult α :=
  match r with
  | .ok payload =>
      if i = 2 then FanResult.rejected m ErrCode.noConfigFile
      else FanResult.payload payload
  | .error e => FanResult.rejected m e

namespace Group

/-- Group.status: Promise.map over the members, each member status call
wrapped with a catch that produces the failure record. The same shape is
shared by fetch, checkout, commit, branch, push, pull, tag, stash and the
flow verbs of the Group class. -/
def status {α : Type} (members : List Member) (op : Member → Except ErrCode α) :
    List (FanResult α) :=
  members.map (fun m => fanWrap m (op m))

/-- Group.detailedStatus of src/src/group.js: Promise.map with the member
index, wrapping each member with detailedWrap. -/
def detailedStatus {α : Type} (members : List Member) (op : Member → Except ErrCode α) :
    List (FanResult α) :=
  members.enum.map (fun im => detailedWrap im.fst im.snd (op im.snd))

end Group

/-- Example member used by the concrete fan-out evaluations. -/
def mShovel : Member := { path := "/projects/shovel", name := "shovel" }

/-- Example member used by the concrete fan-out evaluations. -/
def mRake : Member := { path := "/projects/rake", name := "rake" }

/-- Example member used by the concrete fan-out evaluations. -/
def mPick : Member := { path := "/projects/pick", name := "pick" }

/- ## Directory (src/src/directory.js). -/

/-- Shape of the per-repository status summary produced by the external
VCS adapter: the six file-change lists consumed by detailedStatus, plus
the ahead and behind counts. -/
structure GitStatus where
  not_added : List String
  deleted : List String
  modified : List String
  created : List String
  renamed : List String
  conflicted : List String
  ahead : Nat
  behind : Nat
deriving DecidableEq, Repr

/-- Result of Directory.detailedStatus: the raw status object extended
with the probed version, the edit count and the clean or dirty text. -/
structure DetailedStatus where
  status : GitStatus
  version : String
  editCount : Nat
  text : String
deriving DecidableEq, Repr

namespace Directory

/-- Directory.detailedStatus: combines a status summary with the probed
version, sums the six file-change list lengths into editCount and derives
the clean or dirty classification. -/
def detailedStatus (status : GitStatus) (version : String) : DetailedStatus :=
  let editCount := 0 + status.not_added.length + status.deleted.length +
    status.modified.length + status.created.length + status.renamed.length +
    status.conflicted.length
  { status := status
    version := version
    editCount := editCount
    text := if editCount == 0 then "clean" else "dirty" }

end Directory

/-- Result of the stat probe on the .git entry, as far as hasGit reads
it. -/
structure GitStats where
  isDirectory : Bool
deriving DecidableEq, Repr

/-- A resolved JavaScript value as observed by a caller of hasGit: either
a boolean, or the zero-argument closure over the memoized boolean that
the memoized branch resolves with. -/
inductive Resolved where
  | boolVal (b : Bool)
  | funVal (captured : Bool)
deriving DecidableEq, Repr

namespace Directory

/-- Directory.hasGit: first argument is the memoization field this
underscore hasGit, second the outcome of statAsync on path slash .git.
Returns the resolved value and the new memoization field. On the first
call the probe outcome is cached and returned as a boolean, any stat
rejection collapsing to false; on later calls the code resolves with the
closure fun unit => this underscore hasGit without touching the
filesystem. -/
def hasGit (cached : Option Bool) (probe : Except Unit GitStats) :
    Resolved × Option Bool :=
  match cached with
  | none =>
    match probe with
    | .ok stats => (Resolved.boolVal stats.isDirectory, some stats.isDirectory)
    | .error _ => (Resolved.boolVal false, some false)
  | some b => (Resolved.funVal b, some b)

/-- Directory.releaseFinish: first component is the process-wide
GIT underscore MERGE underscore AUTOEDIT variable before the call, the
result pairs its value after the call with the raw git-flow argument
list. The code sets the variable to no and never restores it. -/
def releaseFinish (autoedit : Option String) (name : Option String)
    (extras : List String) : Option String × List String :=
  ( some "no"
  , ["flow", "release", "finish"] ++
      (match name with | some n => [n] | none => []) ++
      ["-m", "Finish"] ++ extras )

/-- Directory.hotfixFinish, same environment handling as releaseFinish. -/
def hotfixFinish (autoedit : Option String) (name : Option String) :
    Option String × List String :=
  ( some "no"
  , ["flow", "hotfix", "finish"] ++
      (match name with | some n => [n] | none => []) ++
      ["-m", "Finish"] )

/-- Directory.bugfixFinish, same environment handling as releaseFinish. -/
def bugfixFinish (autoedit : Option String) (name : Option String) :
    Option String × List String :=
  ( some "no"
  , ["flow", "bugfix", "finish"] ++
      (match name with | some n => [n] | none => []) ++
      ["-m", "Finish"] )

end Directory

end MG

namespace MG

/-- C1: for every group and every per-member outcome assignment, the
fan-out verbs return exactly one result record per member, in member
order: both batch results have the length of the member list and the
record at index i is computed from the member at index i alone, no matter
how many members reject. -/
theorem fanout_one_record_per_member {α : Type} (members : List Member)
    (op : Member → Except ErrCode α) (i : Nat) :
    (Group.status members op).length = members.length ∧
    (Group.detailedStatus members op).length = members.length ∧
    (Group.status members op)[i]? = (members[i]?).map (fun m => fanWrap m (op m)) ∧
    (Group.detailedStatus members op)[i]? =
      (members[i]?).map (fun m => detailedWrap i m (op m)) := by
  refine ⟨by simp [Group.status], ?_, ?_, ?_⟩
  · simp [Group.detailedStatus, List.enum_length]
  · simp [Group.status]
  · simp only [Group.detailedStatus, List.getElem?_map, List.getElem?_enum,
      Option.map_map]
    cases members[i]? <;> rfl

/-- C2: in Group.status a member whose operation rejects yields a failure
record while the others keep their success payloads, giving success,
failure, success on the three-member example; but Group.detailedStatus of
src/src/group.js turns the member at index 2 into a failure record
carrying NoConfigFileError even though its operation resolved. -/
theorem detailedStatus_index_two_always_rejected :
    Group.status [mShovel, mRake, mPick]
        (fun m => if m = mRake then Except.error (ErrCode.gitError "boom")
          else Except.ok m.name) =
      [FanResult.payload "shovel",
        FanResult.rejected mRake (ErrCode.gitError "boom"),
        FanResult.payload "pick"] ∧
    Group.detailedStatus [mShovel, mRake, mPick] (fun m => Except.ok m.name) =
      [FanResult.payload "shovel", FanResult.payload "rake",
        FanResult.rejected mPick ErrCode.noConfigFile] ∧
    ErrCode.noConfigFile.code = "no-config-file" := by
  decide

/-- C4: detailedStatus computes editCount as the sum of the lengths of
the not-added, deleted, modified, created, renamed and conflicted lists,
classifies the repository clean exactly when that sum is zero, and a
single modified file yields the dirty classification. -/
theorem detailedStatus_editCount_classification (s : GitStatus) (v : String) :
    (Directory.detailedStatus s v).editCount =
      s.not_added.length + s.deleted.length + s.modified.length +
        s.created.length + s.renamed.length + s.conflicted.length ∧
    ((Directory.detailedStatus s v).text = "clean" ↔
      s.not_added.length + s.deleted.length + s.modified.length +
        s.created.length + s.renamed.length + s.conflicted.length = 0) ∧
    ((Directory.detailedStatus s v).text = "clean" ∨
      (Directory.detailedStatus s v).text = "dirty") ∧
    (Directory.detailedStatus
        { not_added := [], deleted := [], modified := ["file.js"], created := [],
          renamed := [], conflicted := [], ahead := 0, behind := 0 } v).text =
      "dirty" := by
  refine ⟨by simp [Directory.detailedStatus], ?_, ?_, by simp [Directory.detailedStatus]⟩
  · simp only [Directory.detailedStatus, Nat.zero_add, beq_iff_eq]
    split_ifs with h
    · simp [h]
    · simp [h]
  · simp only [Directory.detailedStatus, Nat.zero_add, beq_iff_eq]
    split_ifs with h
    · left; rfl
    · right; rfl

/-- C9 counterexample: the first hasGit call on a repository resolves
with the boolean true, but the memoized second call resolves with the
closure over the cached field, which is not a boolean value, so later
calls do not resolve to the same boolean value as the first call. -/
theorem hasGit_second_call_not_boolean :
    (Directory.hasGit none (Except.ok { isDirectory := true })).fst =
      Resolved.boolVal true ∧
    (Directory.hasGit (some true) (Except.error ())).fst = Resolved.funVal true ∧
    Resolved.funVal true ≠ Resolved.boolVal true := by
  decide

/-- C9 amended: hasGit never rejects, the first call on a path without
VCS metadata resolves with the boolean false and memoizes it, and every
later call skips the filesystem probe entirely, resolving with the
closure over the memoized boolean rather than with the boolean itself. -/
theorem hasGit_memoized_behaviour (cached : Bool)
    (probe probe' : Except Unit GitStats) :
    Directory.hasGit none (Except.error ()) = (Resolved.boolVal false, some false) ∧
    (∀ st : GitStats, st.isDirectory = false →
      Directory.hasGit none (Except.ok st) = (Resolved.boolVal false, some false)) ∧
    Directory.hasGit (some cached) probe = Directory.hasGit (some cached) probe' ∧
    (Directory.hasGit (some cached) probe).fst = Resolved.funVal cached := by
  refine ⟨rfl, ?_, rfl, rfl⟩
  intro st h
  simp [Directory.hasGit, h]

/-- C9 amended witness at a concrete probe outcome. -/
theorem hasGit_memoized_behaviour_witness :
    Directory.hasGit none (Except.ok { isDirectory := false }) =
      (Resolved.boolVal false, some false) :=
  (hasGit_memoized_behaviour false (Except.error ())
    (Except.ok { isDirectory := true })).2.1 { isDirectory := false } rfl

/-- C8 counterexample: with the merge autoedit variable initially unset,
running releaseFinish leaves it set to no, so the process-wide
environment state after the promise settles differs from the state
before the call; hotfixFinish and bugfixFinish behave the same way. -/
theorem finish_autoedit_not_restored :
    (Directory.releaseFinish none none []).fst = some "no" ∧
    some "no" ≠ (none : Option String) ∧
    (Directory.hotfixFinish none none).fst = some "no" ∧
    (Directory.bugfixFinish none none).fst = some "no" := by
  decide

/-- C8 amended: the release, hotfix and bugfix finish operations set the
process-wide merge autoedit toggle to no before invoking the external
flow command and never restore it, whatever its previous value was, while
passing the fixed Finish merge message. -/
theorem finish_sets_autoedit_globally (autoedit : Option String)
    (name : Option String) (extras : List String) :
    (Directory.releaseFinish autoedit name extras).fst = some "no" ∧
    (Directory.hotfixFinish autoedit name).fst = some "no" ∧
    (Directory.bugfixFinish autoedit name).fst = some "no" ∧
    Directory.releaseFinish autoedit (some "1.3.0") [] =
      (some "no", ["flow", "release", "finish", "1.3.0", "-m", "Finish"]) := by
  exact ⟨rfl, rfl, rfl, rfl⟩

end MG

namespace MG

/- ## Release branch lookup (src/src/directory.js getReleaseBranch). -/

/-- A branch descriptor as produced by branchVerbose: the branch name,
the remote-release marker set when the name matches the remote release
pattern, and the computed local name for such remote branches. -/
structure Branch where
  name : String
  isRemoteRelease : Bool
  localName : Option String
deriving DecidableEq, Repr

namespace Directory

/-- Directory.getReleaseBranch over the branch summary: lodash find
returns the first element satisfying the predicate, or undefined, never
an array, so the isArray guards of the source that would raise
MultipleActiveReleaseError can never fire and are dead code; the
embedding is the live control flow: first local branch whose name starts
with the release prefix, else first remote release branch, else the
no-active-release error. -/
def getReleaseBranch (releasePfx : String) (branches : List Branch) :
    Except ErrCode Branch :=
  match branches.find? (fun b => strStartsWith b.name releasePfx) with
  | some b => Except.ok b
  | none =>
    match branches.find? (fun b => b.isRemoteRelease) with
    | some b => Except.ok b
    | none => Except.error ErrCode.noActiveRelease

end Directory

/-- Example branch list entry. -/
def bDevelop : Branch := { name := "develop", isRemoteRelease := false, localName := none }

/-- Example local release branch. -/
def bRel1 : Branch := { name := "release/1.0.0", isRemoteRelease := false, localName := none }

/-- Second example local release branch. -/
def bRel2 : Branch := { name := "release/2.0.0", isRemoteRelease := false, localName := none }

/-- Example remote release branch. -/
def bRemRel1 : Branch :=
  { name := "remotes/origin/release/1.0.0", isRemoteRelease := true
    localName := some "release/1.0.0" }

/-- Second example remote release branch. -/
def bRemRel2 : Branch :=
  { name := "remotes/origin/release/2.0.0", isRemoteRelease := true
    localName := some "release/2.0.0" }

/-- C3: getReleaseBranch rejects with no-active-release when nothing
matches and resolves with the single local match, but with two local
matches, or two remote matches, it resolves with the first one instead of
rejecting with multiple-active-release, because lodash find yields one
element and the multiplicity guards are dead. -/
theorem getReleaseBranch_first_match_no_multiple_error :
    Directory.getReleaseBranch "release/" [bDevelop] =
      Except.error ErrCode.noActiveRelease ∧
    Directory.getReleaseBranch "release/" [bDevelop, bRel1] = Except.ok bRel1 ∧
    Directory.getReleaseBranch "release/" [bDevelop, bRel1, bRel2] = Except.ok bRel1 ∧
    Directory.getReleaseBranch "release/" [bDevelop, bRemRel1, bRemRel2] =
      Except.ok bRemRel1 ∧
    ErrCode.noActiveRelease.code = "no-active-release" ∧
    ErrCode.multipleActiveRelease.code = "multiple-active-release" := by
  decide

/- ## Version probe (src/src/directory.js getVersion). -/

/-- A parsed manifest file, reduced to the version field getVersion
reads. -/
structure Manifest where
  version : Option String
deriving DecidableEq, Repr

/-- Outcome of one readFileAsync call on a manifest path: the read
rejects because the file is missing, fulfills with content that fails to
parse, or fulfills with a parsed manifest. -/
inductive FileRead where
  | missing
  | invalid
  | valid (m : Manifest)
deriving DecidableEq, Repr

/-- Filesystem environment of one getVersion call: the read outcome for
each candidate manifest, bower.json, composer.json and package.json, and
the completion instant of each read, lower rank meaning it settles
first. -/
structure VersionEnv where
  bower : FileRead
  composer : FileRead
  package : FileRead
  bowerRank : Nat
  composerRank : Nat
  packageRank : Nat
deriving DecidableEq, Repr

/-- Bluebird Promise.some with count one: resolves with the first
fulfilled promise in completion order, whatever its position in the
candidate list, and rejects only when every promise rejects. -/
def someFirstFulfilled (reads : List (Nat × FileRead)) : Option (Nat × FileRead) :=
  (reads.filter (fun rc => rc.snd != FileRead.missing)).foldl
    (fun acc x =>
      match acc with
      | none => some x
      | some a => if x.fst < a.fst then some x else some a)
    none

namespace Directory

/-- Directory.getVersion: Promise.some over the three manifest reads,
JSON-parsing the winner and falling back on the dash sentinel when the
winner has no version field, fails to parse, or no manifest exists at
all. -/
def getVersion (env : VersionEnv) : String :=
  match someFirstFulfilled
      [(env.bowerRank, env.bower), (env.composerRank, env.composer),
        (env.packageRank, env.package)] with
  | some (_, FileRead.valid m) => m.version.getD "-"
  | some (_, FileRead.invalid) => "-"
  | some (_, FileRead.missing) => "-"
  | none => "-"

end Directory

/-- Concrete race environment: bower.json and package.json both exist but
the package.json read completes first. -/
def raceEnv : VersionEnv :=
  { bower := FileRead.valid { version := some "0.1.0" }
    composer := FileRead.missing
    package := FileRead.valid { version := some "9.9.9" }
    bowerRank := 2
    composerRank := 1
    packageRank := 0 }

/-- C7 counterexample: bower.json exists and comes first in the candidate
list, yet getVersion returns the package.json version because that read
completed first, so the earliest existing manifest in candidate order
does not always win. -/
theorem getVersion_completion_order_counterexample :
    raceEnv.bower = FileRead.valid { version := some "0.1.0" } ∧
    Directory.getVersion raceEnv = "9.9.9" ∧
    ("9.9.9" : String) ≠ "0.1.0" := by
  decide

/-- C7 amended: getVersion resolves with the version of whichever
existing manifest read completes first rather than by candidate-list
priority; with package.json as the only manifest it returns that version
whatever the completion instants are, with no manifest at all it returns
the dash sentinel and never rejects, and whenever the package.json read
completes strictly first its version wins even if the other manifests
exist. -/
theorem getVersion_first_completed (brank crank prank : Nat) (m : Manifest)
    (fb fc : FileRead) :
    Directory.getVersion
        { bower := FileRead.missing, composer := FileRead.missing
          package := FileRead.valid m, bowerRank := brank
          composerRank := crank, packageRank := prank } =
      m.version.getD "-" ∧
    Directory.getVersion
        { bower := FileRead.missing, composer := FileRead.missing
          package := FileRead.missing, bowerRank := brank
          composerRank := crank, packageRank := prank } = "-" ∧
    (prank < brank → prank < crank →
      Directory.getVersion
          { bower := fb, composer := fc, package := FileRead.valid m
            bowerRank := brank, composerRank := crank, packageRank := prank } =
        m.version.getD "-") := by
  refine ⟨by simp [Directory.getVersion, someFirstFulfilled], by rfl, ?_⟩
  intro hb hc
  cases fb <;> cases fc <;>
    simp_all [Directory.getVersion, someFirstFulfilled] <;>
    split_ifs <;> simp_all

/-- C7 amended witness at the concrete race environment. -/
theorem getVersion_first_completed_witness :
    Directory.getVersion
        { bower := FileRead.valid { version := some "0.1.0" }
          composer := FileRead.missing
          package := FileRead.valid { version := some "9.9.9" }
          bowerRank := 2, composerRank := 1, packageRank := 0 } = "9.9.9" :=
  (getVersion_first_completed 2 1 0 { version := some "9.9.9" }
    (FileRead.valid { version := some "0.1.0" }) FileRead.missing).2.2
    (by decide) (by decide)

/- ## The pull composite (src/lib/multi-git.js). -/

/-- A repository entry of the nodegit-based MultiGit fleet, identified by
its name. -/
structure Repository where
  name : String
deriving DecidableEq, Repr

/-- The per-repository status record the status phase recomputes: the
pending change list and the ahead and behind commit counts against the
current upstream. -/
structure RepoStatus where
  pendingChanges : List String
  ahead : Nat
  behind : Nat
deriving DecidableEq, Repr

/-- Clean or dirty text of a recomputed status: dirty exactly when some
pending change exists. -/
def RepoStatus.text (s : RepoStatus) : String :=
  if s.pendingChanges.isEmpty then "clean" else "dirty"

namespace MultiGit

/-- The status phase of MultiGit: recomputes the status record of every
repository in the list; statusOf is the state the external VCS reports at
that point in time. -/
def status (statusOf : Repository → RepoStatus) (repos : List Repository) :
    List (Repository × RepoStatus) :=
  repos.map (fun r => (r, statusOf r))

/-- The repositories the pull composite merges: after the fetch phase has
run on every repository and the status phase has recomputed their
statuses, exactly the repositories whose recomputed status is clean and
whose behind count is positive are kept for merging. -/
def pullMergeTargets (postFetchStatusOf : Repository → RepoStatus)
    (repos : List Repository) : List Repository :=
  ((status postFetchStatusOf repos).filter
      (fun rs => (rs.snd.text == "clean") && decide (0 < rs.snd.behind))).map
    Prod.fst

/-- MultiGit.pull: fetch every repository of the list, recompute their
statuses, then merge each clean repository that is behind its upstream;
postFetchStatusOf gives the statuses as recomputed after the fetch phase
and merge is the per-repository merge step. Skipped repositories simply
produce no entry. -/
def pull {μ : Type} (postFetchStatusOf : Repository → RepoStatus)
    (repos : List Repository) (merge : Repository → μ) : List μ :=
  (pullMergeTargets postFetchStatusOf repos).map merge

end MultiGit

theorem pullMergeTargets_eq_filter (postF : Repository → RepoStatus)
    (repos : List Repository) :
    MultiGit.pullMergeTargets postF repos =
      repos.filter
        (fun rr => ((postF rr).text == "clean") && decide (0 < (postF rr).behind)) := by
  induction repos with
  | nil => rfl
  | cons a t ih =>
    simp only [MultiGit.pullMergeTargets, MultiGit.status, List.map_cons,
      List.filter_cons] at ih ⊢
    by_cases h : ((postF a).text == "clean" && decide (0 < (postF a).behind)) = true
    · simp only [h, if_true, List.map_cons, ih]
    · simp only [Bool.not_eq_true] at h
      simp only [h, Bool.false_eq_true, if_false, ih]

theorem mem_pullMergeTargets (postF : Repository → RepoStatus)
    (repos : List Repository) (r : Repository) :
    r ∈ MultiGit.pullMergeTargets postF repos ↔
      r ∈ repos ∧ (postF r).text = "clean" ∧ 0 < (postF r).behind := by
  rw [pullMergeTargets_eq_filter]
  simp [List.mem_filter, and_assoc]

/-- Example repository, dirty and three commits behind after the fetch. -/
def repoA : Repository := { name := "alpha" }

/-- Example repository, clean and two commits behind after the fetch. -/
def repoB : Repository := { name := "beta" }

/-- Recomputed statuses of the two example repositories. -/
def demoPullStatus : Repository → RepoStatus := fun r =>
  if r = repoA then { pendingChanges := ["M index.js"], ahead := 0, behind := 3 }
  else { pendingChanges := [], ahead := 0, behind := 2 }

/-- C5: the pull composite merges exactly the repositories whose
recomputed post-fetch status is clean with a positive behind count; on
the two-member example where alpha is dirty and three commits behind
while beta is clean and two commits behind, only beta reaches the merge
phase and the result list carries no record at all, in particular no
failure, for alpha. -/
theorem pull_merges_only_clean_behind (postF : Repository → RepoStatus)
    (repos : List Repository) (r : Repository) (h : r ∈ repos) {μ : Type}
    (merge : Repository → μ) :
    (r ∈ MultiGit.pullMergeTargets postF repos ↔
      (postF r).text = "clean" ∧ 0 < (postF r).behind) ∧
    MultiGit.pull postF repos merge =
      (MultiGit.pullMergeTargets postF repos).map merge ∧
    MultiGit.pullMergeTargets demoPullStatus [repoA, repoB] = [repoB] ∧
    MultiGit.pull demoPullStatus [repoA, repoB] (fun x => x.name) = ["beta"] := by
  refine ⟨?_, rfl, by decide, by decide⟩
  rw [mem_pullMergeTargets]
  exact ⟨fun hm => hm.2, fun hc => ⟨h, hc⟩⟩

/-- C5 witness at the concrete two-repository example. -/
theorem pull_merges_only_clean_behind_witness :
    repoB ∈ MultiGit.pullMergeTargets demoPullStatus [repoA, repoB] :=
  ((pull_merges_only_clean_behind demoPullStatus [repoA, repoB] repoB
    (by decide) (fun x => x.name)).1).mpr (by decide)

/- ## Version bumping (src/src/manager.js Group class). -/

/-- ASCII digit test, the character class backslash d of the version
regular expression. -/
def isDigitChar (c : Char) : Bool := 48 ≤ c.toNat && c.toNat ≤ 57

/-- Word character test, the character class backslash w of the version
regular expression. -/
def isWordChar (c : Char) : Bool :=
  isDigitChar c || (65 ≤ c.toNat && c.toNat ≤ 90) ||
    (97 ≤ c.toNat && c.toNat ≤ 122) || c.toNat == 95

/-- The VersionRegexp of src/src/manager.js: digits dot digits dot
digits, optionally followed by a dash, one or more word characters and an
optional dot digits suffix, anchored at both ends. -/
def versionRegexpTest (s : String) : Bool :=
  let cs := s.data
  let d1 := cs.takeWhile isDigitChar
  let r1 := cs.dropWhile isDigitChar
  if d1.isEmpty then false else
  match r1 with
  | '.' :: r1tl =>
    let d2 := r1tl.takeWhile isDigitChar
    let r2 := r1tl.dropWhile isDigitChar
    if d2.isEmpty then false else
    match r2 with
    | '.' :: r2tl =>
      let d3 := r2tl.takeWhile isDigitChar
      let r3 := r2tl.dropWhile isDigitChar
      if d3.isEmpty then false else
      match r3 with
      | [] => true
      | '-' :: pre =>
        let w := pre.takeWhile isWordChar
        let r4 := pre.dropWhile isWordChar
        if w.isEmpty then false else
        match r4 with
        | [] => true
        | '.' :: ds => !ds.isEmpty && ds.all isDigitChar
        | _ => false
      | _ => false
    | _ => false
  | _ => false

/-- The bump keywords recognised by getNextVersion. -/
def bumpKeywords : List String :=
  ["major", "minor", "patch", "premajor", "preminor", "prepatch", "prerelease"]

/-- Numeric value of a digit list. -/
def digitsVal (cs : List Char) : Nat :=
  cs.foldl (fun n c => n * 10 + (c.toNat - 48)) 0

/-- Parse of a plain major dot minor dot patch version string. -/
def semverParse (s : String) : Option (Nat × Nat × Nat) :=
  let cs := s.data
  let d1 := cs.takeWhile isDigitChar
  match cs.dropWhile isDigitChar with
  | '.' :: r1 =>
    let d2 := r1.takeWhile isDigitChar
    match r1.dropWhile isDigitChar with
    | '.' :: r2 =>
      if d1.isEmpty || d2.isEmpty || r2.isEmpty || !r2.all isDigitChar then none
      else some (digitsVal d1, digitsVal d2, digitsVal r2)
    | _ => none
  | _ => none

/-- Modelled from the spec: the external bump-regex collaborator, which
the repository only calls through getNextVersion; per the spec it bumps a
version string by strict semver rules for the requested bump kind. The
model covers the major, minor and patch kinds on plain versions; the
prerelease kinds lie outside this model and are mapped to a parse
failure. -/
def bumpSemver (version : String) (ty : String) : Option String :=
  match semverParse version with
  | some (major, minor, patch) =>
    if ty == "patch" then
      some (toString major ++ "." ++ toString minor ++ "." ++ toString (patch + 1))
    else if ty == "minor" then
      some (toString major ++ "." ++ toString (minor + 1) ++ ".0")
    else if ty == "major" then
      some (toString (major + 1) ++ ".0.0")
    else none
  | none => none

namespace Group

/-- Body of the then callback of Group.getNextVersion in
src/src/manager.js: a bump argument matching VersionRegexp is returned
unchanged, a recognised bump keyword is applied to the latest version
through the bump collaborator whose failure is mapped to
InvalidVersionError, and anything else raises InvalidVersionError. -/
def nextVersion (latest : Option String) (bump : String) : Except ErrCode String :=
  if versionRegexpTest bump then Except.ok bump
  else if bumpKeywords.contains bump then
    match latest with
    | some v =>
      match bumpSemver v bump with
      | some newVersion => Except.ok newVersion
      | none => Except.error ErrCode.invalidVersion
    | none => Except.error ErrCode.invalidVersion
  else Except.error ErrCode.invalidVersion

/-- Group.getLatestVersion: maps every member to its version string,
sorts the array with the default JavaScript sort, which is lexicographic
string comparison, and returns the last element; undefined, embedded as
none, on an empty member list. -/
def getLatestVersion (versions : List String) : Option String :=
  (List.insertionSort (fun a b => strLe a b = true) versions).getLast?

/-- Group.getNextVersion: resolves the latest member version and feeds it
to the bump logic. -/
def getNextVersion (versions : List String) (bump : String) :
    Except ErrCode String :=
  nextVersion (getLatestVersion versions) bump

end Group

/-- Stated from the claim: the semantic-version maximum of two plain
version strings, comparing the parsed major, minor and patch triples
lexicographically, used only to compare the code result against the
semantic order. -/
def specSemverMax (a b : String) : Option String :=
  match semverParse a, semverParse b with
  | some ta, some tb =>
    some (if ta.1 < tb.1 ∨ (ta.1 = tb.1 ∧ (ta.2.1 < tb.2.1 ∨
        (ta.2.1 = tb.2.1 ∧ ta.2.2 < tb.2.2))) then b else a)
  | _, _ => none

/-- C6: a bump argument matching the version regular expression is
returned unchanged, bypassing the bump algorithm; the patch keyword
applied when the latest version is 1.2.3 yields 1.2.4; and an argument
that is neither a recognised keyword nor a valid literal rejects with the
invalid-version error. -/
theorem getNextVersion_literal_patch_invalid (latest : Option String)
    (bump : String) :
    (versionRegexpTest bump = true → Group.nextVersion latest bump = Except.ok bump) ∧
    (versionRegexpTest bump = false → bumpKeywords.contains bump = false →
      Group.nextVersion latest bump = Except.error ErrCode.invalidVersion) ∧
    Group.nextVersion (some "1.2.3") "patch" = Except.ok "1.2.4" ∧
    versionRegexpTest "2.0.0" = true ∧
    Group.nextVersion latest "2.0.0" = Except.ok "2.0.0" ∧
    ErrCode.invalidVersion.code = "invalid-version" := by
  refine ⟨?_, ?_, by decide, by decide, ?_, rfl⟩
  · intro h
    simp [Group.nextVersion, h]
  · intro h1 h2
    have h2m : bump ∉ bumpKeywords := by simpa using h2
    simp [Group.nextVersion, h1, h2m]
  · simp [Group.nextVersion, show versionRegexpTest "2.0.0" = true by decide]

/-- C6 witness: the literal case at 2.0.1 and the invalid case at a
garbage bump argument, both with latest version 1.2.3. -/
theorem getNextVersion_literal_patch_invalid_witness :
    Group.nextVersion (some "1.2.3") "2.0.1" = Except.ok "2.0.1" ∧
    Group.nextVersion (some "1.2.3") "foobar" =
      Except.error ErrCode.invalidVersion :=
  ⟨(getNextVersion_literal_patch_invalid (some "1.2.3") "2.0.1").1 (by decide),
    (getNextVersion_literal_patch_invalid (some "1.2.3") "foobar").2.1
      (by decide) (by decide)⟩

theorem sorted_getLast_ge :
    ∀ (l : List String), l.Sorted (fun a b => strLe a b = true) →
      ∀ (hne : l ≠ []) (x : String), x ∈ l → strLe x (l.getLast hne) = true := by
  intro l
  induction l with
  | nil => intro _ hne; cases hne rfl
  | cons a t ih =>
    intro hs hne x hx
    cases t with
    | nil =>
      have hxa : x = a := by simpa using hx
      subst hxa
      exact charListLe_refl _
    | cons b t2 =>
      have htne : b :: t2 ≠ [] := by simp
      rw [List.getLast_cons htne]
      rcases List.mem_cons.mp hx with rfl | hx2
      · exact List.rel_of_sorted_cons hs _ (List.getLast_mem htne)
      · exact ih hs.of_cons htne x hx2

/-- C10: getLatestVersion returns the lexicographically greatest version
string of the members, which on the example versions 1.9.0 and 1.10.0 is
1.9.0 and differs from the semantic-version maximum 1.10.0, and
getNextVersion bumps from that lexicographic maximum, yielding 1.9.1. -/
theorem getLatestVersion_lexicographic (versions : List String)
    (hne : versions ≠ []) :
    (∃ m, Group.getLatestVersion versions = some m ∧ m ∈ versions ∧
      ∀ v ∈ versions, strLe v m = true) ∧
    Group.getLatestVersion ["1.9.0", "1.10.0"] = some "1.9.0" ∧
    specSemverMax "1.9.0" "1.10.0" = some "1.10.0" ∧
    ("1.9.0" : String) ≠ "1.10.0" ∧
    Group.getNextVersion ["1.9.0", "1.10.0"] "patch" = Except.ok "1.9.1" := by
  refine ⟨?_, by decide, by decide, by decide, by decide⟩
  have hperm := List.perm_insertionSort (fun a b => strLe a b = true) versions
  have hLne : List.insertionSort (fun a b => strLe a b = true) versions ≠ [] := by
    intro hcon
    exact hne (List.eq_nil_of_length_eq_zero (by
      rw [← hperm.length_eq, hcon]; rfl))
  refine ⟨(List.insertionSort (fun a b => strLe a b = true) versions).getLast hLne,
    ?_, ?_, ?_⟩
  · simp [Group.getLatestVersion, List.getLast?_eq_getLast _ hLne]
  · exact hperm.mem_iff.mp (List.getLast_mem hLne)
  · intro v hv
    exact sorted_getLast_ge _
      (List.sorted_insertionSort (fun a b => strLe a b = true) versions) hLne v
      (hperm.mem_iff.mpr hv)

/-- C10 witness at the example version pair. -/
theorem getLatestVersion_lexicographic_witness :
    Group.getLatestVersion ["1.9.0", "1.10.0"] = some "1.9.0" ∧
    specSemverMax "1.9.0" "1.10.0" = some "1.10.0" ∧
    ("1.9.0" : String) ≠ "1.10.0" ∧
    Group.getNextVersion ["1.9.0", "1.10.0"] "patch" = Except.ok "1.9.1" :=
  (getLatestVersion_lexicographic ["1.9.0", "1.10.0"] (by decide)).2

end MG

